import Mathlib

/-!
# Verification of the clash-deck-tracker core logic

A shallow embedding of the deck-tracker's core logic: the deck state
machine (`selectCard`, `cycleCard`, toggling the evolution flag, `undo`,
`saveState`), the fuzzy card matcher (`findBestCardMatch`), and the voice
command handling (`processVoiceCommand`, `addCardByVoice`).

JavaScript strings are embedded as Lean `String` (which in this toolchain
is a wrapper around `List Char`); `toLowerCase`, `trim`, `includes`,
`startsWith`, `substring` are modelled character-wise on the underlying
list.  The mutable `DeckTracker` instance fields `deck` and `history`
become the explicit state record `DeckState`; the `JSON.parse(JSON.stringify(..))`
deep copy in `saveState` is the identity in this value-semantics model.
The card catalog (a JS object mapping elixir cost to arrays of cards) is
embedded as the flat list of its card records in iteration order, which is
the order in which every loop of the source (`for elixirCost in cards`
followed by `for card of cards[elixirCost]`) visits them.
-/

namespace ClashDeck

/-! ## String helpers (models of the JS string primitives used) -/

/-- Model of JS `s.toLowerCase()` (character-wise, ASCII). -/
def lowerStr (s : String) : String := ⟨s.data.map Char.toLower⟩

/-- Model of JS `s.trim()`: removes whitespace at both ends. -/
def trimStr (s : String) : String :=
  ⟨((s.data.dropWhile Char.isWhitespace).reverse.dropWhile Char.isWhitespace).reverse⟩

/-- Model of JS `hay.includes(needle)`: `needle` occurs contiguously in `hay`. -/
def substrOf (needle hay : String) : Bool := decide (needle.data <:+: hay.data)

/-- Model of JS `s.startsWith(pre)`. -/
def startsWithStr (s pre : String) : Bool := pre.data.isPrefixOf s.data

/-- Model of JS `s.substring(n)`: drop the first `n` characters. -/
def dropStr (s : String) (n : Nat) : String := ⟨s.data.drop n⟩

/-- JS regex word character class `\w` = `[A-Za-z0-9_]` (ASCII). -/
def isWordChar (c : Char) : Bool := c.isAlphanum || c == '_'

/-- Whether a maximal word run is one of the stopwords `the`, `a`, `an`. -/
def isStopRun (run : List Char) : Bool :=
  run == "the".data || run == "a".data || run == "an".data

/-- A word run is kept unless it is a stopword. -/
def emitRun (run : List Char) : List Char := if isStopRun run then [] else run

/-- Core of the stopword removal `s.replace(/\b(the|a|an)\b/g, '')`:
the regex `\b(the|a|an)\b` matches exactly the maximal runs of word
characters that equal `the`, `a` or `an` (a word boundary `\b` sits
precisely at the edges of maximal word runs, and the three alternatives
consist of word characters only), so the global replace deletes exactly
those runs.  `cur` accumulates the current word run. -/
def stripWordsGo (cur : List Char) : List Char → List Char
  | [] => emitRun cur
  | c :: cs =>
    if isWordChar c then stripWordsGo (cur ++ [c]) cs
    else emitRun cur ++ c :: stripWordsGo [] cs

/-- Model of JS `s.replace(/\b(the|a|an)\b/g, '').trim()`. -/
def stripStopwords (s : String) : String := trimStr ⟨stripWordsGo [] s.data⟩

/-! ## Data model -/

/-- A catalog card record: `{name, image, alternatives?}`.  A missing
`alternatives` field is embedded as the empty list (the source only ever
iterates over it under an `if (card.alternatives)` guard). -/
structure CardRecord where
  name : String
  image : String
  alternatives : List String
deriving DecidableEq

/-- A deck slot occupant: the spread `{ ...card, isEvo }` of a catalog
card plus the evolution flag. -/
structure DeckSlotCard where
  card : CardRecord
  isEvo : Bool
deriving DecidableEq

/-- A deck is a list of slots, each empty (`null`) or occupied. -/
abbrev Deck := List (Option DeckSlotCard)

/-- The mutable state of the tracker relevant to the deck state machine:
`this.deck` and `this.history`. -/
structure DeckState where
  deck : Deck
  history : List Deck
deriving DecidableEq

/-- Startup state: `Array(8).fill(null)` and an empty history. -/
def initState : DeckState := { deck := List.replicate 8 none, history := [] }

/-! ## Deck state machine -/

/-- History push of `saveState`: `history.push(deepCopy(deck))` followed by
`if (history.length > 10) history.shift()`. -/
def pushSnap (h : List Deck) (d : Deck) : List Deck :=
  if (h ++ [d]).length > 10 then (h ++ [d]).drop 1 else h ++ [d]

/-- `saveState()`: push a snapshot of the current deck, keep only the last
10 entries. -/
def saveState (st : DeckState) : DeckState :=
  { st with history := pushSnap st.history st.deck }

/-- `cycleCard(position)`: no-op when `!this.deck[position]` (empty slot or
out of range); otherwise save state, `splice(position, 1)`, `push(card)`,
and re-slice to the last 8 entries if the deck grew beyond 8. -/
def cycleCard (position : Nat) (st : DeckState) : DeckState :=
  match st.deck[position]? with
  | some (some card) =>
    let st1 := saveState st
    let d2 := st1.deck.eraseIdx position ++ [some card]
    { st1 with deck := if d2.length > 8 then d2.drop (d2.length - 8) else d2 }
  | _ => st

/-- The `findIndex` predicate of `selectCard`:
`deckCard && deckCard.name === card.name`. -/
def slotNameMatches (n : String) : Option DeckSlotCard → Bool
  | some dc => dc.card.name == n
  | none => false

/-- `selectCard(card)` (the spec's `insertOrBump`): save state; if a slot
already holds a card of the same name, delegate to `cycleCard` of that
position (which saves state again); otherwise `shift()` out slot 0 and
`push({...card, isEvo:false})`. -/
def selectCard (card : CardRecord) (st : DeckState) : DeckState :=
  let st1 := saveState st
  match st1.deck.findIdx? (slotNameMatches card.name) with
  | some idx => cycleCard idx st1
  | none => { st1 with deck := st1.deck.drop 1 ++ [some { card := card, isEvo := false }] }

/-- The evolution-star drop handler: when the slot is occupied, save state
and flip `card.isEvo`. -/
def toggleEvolution (position : Nat) (st : DeckState) : DeckState :=
  match st.deck[position]? with
  | some (some dc) =>
    let st1 := saveState st
    { st1 with deck := st1.deck.set position (some { dc with isEvo := !dc.isEvo }) }
  | _ => st

/-- `undo()`: when the history is non-empty, pop its last snapshot into the
deck; otherwise do nothing. -/
def undo (st : DeckState) : DeckState :=
  match st.history.getLast? with
  | some prev => { deck := prev, history := st.history.dropLast }
  | none => st

/-- The operations of the deck state machine. -/
inductive DeckOp where
  | insertOrBump (c : CardRecord)
  | cycle (p : Nat)
  | toggleEvo (p : Nat)
  | undoOp
deriving DecidableEq

/-- Dispatch one operation. -/
def applyOp (st : DeckState) : DeckOp → DeckState
  | .insertOrBump c => selectCard c st
  | .cycle p => cycleCard p st
  | .toggleEvo p => toggleEvolution p st
  | .undoOp => undo st

/-- Run a sequence of operations from the startup state. -/
def runOps (ops : List DeckOp) : DeckState := ops.foldl applyOp initState

/-! ## Fuzzy matcher -/

/-- `findBestCardMatch(spokenName)`: five matching strategies tried in
order, each a full scan over the catalog (in iteration order) returning
the first card satisfying that tier's test. -/
def findBestCardMatch (spokenName : String) (cards : List CardRecord) : Option CardRecord :=
  let spoken := trimStr (lowerStr spokenName)
  match cards.find? (fun c => lowerStr c.name == spoken) with
  | some c => some c
  | none =>
    match cards.find? (fun c => c.alternatives.any (fun alt => lowerStr alt == spoken)) with
    | some c => some c
    | none =>
      match cards.find? (fun c =>
          substrOf spoken (lowerStr c.name) || substrOf (lowerStr c.name) spoken) with
      | some c => some c
      | none =>
        match cards.find? (fun c => c.alternatives.any (fun alt =>
            substrOf spoken (lowerStr alt) || substrOf (lowerStr alt) spoken)) with
        | some c => some c
        | none =>
          cards.find? (fun c =>
            substrOf (stripStopwords spoken) (stripStopwords (lowerStr c.name)) ||
            substrOf (stripStopwords (lowerStr c.name)) (stripStopwords spoken))

/-! Spec-side tier predicates and the cascade stated by the spec
("evaluated as an ordered sequence of strategies, returning the first
hit"); compared with the transcribed `findBestCardMatch`. -/

/-- Tier 1 of the spec: exact case-insensitive match against `name`. -/
def tierExactName (s : String) (c : CardRecord) : Bool := lowerStr c.name == s

/-- Tier 2 of the spec: exact case-insensitive match against an
`alternatives` entry. -/
def tierExactAlt (s : String) (c : CardRecord) : Bool :=
  c.alternatives.any (fun alt => lowerStr alt == s)

/-- Tier 3 of the spec: bidirectional case-insensitive substring match
against `name`. -/
def tierSubName (s : String) (c : CardRecord) : Bool :=
  substrOf s (lowerStr c.name) || substrOf (lowerStr c.name) s

/-- Tier 4 of the spec: the same substring match against `alternatives`
entries. -/
def tierSubAlt (s : String) (c : CardRecord) : Bool :=
  c.alternatives.any (fun alt => substrOf s (lowerStr alt) || substrOf (lowerStr alt) s)

/-- Tier 5 of the spec: stopword-stripped bidirectional substring match
against `name`. -/
def tierStopword (s : String) (c : CardRecord) : Bool :=
  substrOf (stripStopwords s) (stripStopwords (lowerStr c.name)) ||
  substrOf (stripStopwords (lowerStr c.name)) (stripStopwords s)

/-- The matcher as worded by the spec: an ordered cascade of the five
tiers, each a first-hit scan in catalog iteration order, falling through
to the next tier only on a complete miss. -/
def findBestMatchSpec (spokenText : String) (cards : List CardRecord) : Option CardRecord :=
  let s := trimStr (lowerStr spokenText)
  cards.find? (tierExactName s) <|> cards.find? (tierExactAlt s) <|>
    cards.find? (tierSubName s) <|> cards.find? (tierSubAlt s) <|>
      cards.find? (tierStopword s)

/-! ## Voice command handling -/

/-- `addCardByVoice(spokenCardName)`: resolve via the matcher; on a hit run
`selectCard` and surface `Added: ..`, on a miss leave the state unchanged
and surface `Card not found: ..`.  The surfaced notification is returned
as data. -/
def addCardByVoice (cards : List CardRecord) (spokenCardName : String) (st : DeckState) :
    DeckState × Option String :=
  match findBestCardMatch spokenCardName cards with
  | some c => (selectCard c st, some ("Added: " ++ c.name))
  | none => (st, some ("Card not found: " ++ spokenCardName))

/-- The voice pipeline: `onresult` lower-cases the transcript and calls
`processVoiceCommand`, which acts only when the text starts with the
literal prefix `add `, passing on `transcript.substring(4).trim()`. -/
def processVoiceCommand (cards : List CardRecord) (transcript : String) (st : DeckState) :
    DeckState × Option String :=
  let t := lowerStr transcript
  if startsWithStr t "add " then addCardByVoice cards (trimStr (dropStr t 4)) st
  else (st, none)

/-! ## Concrete fixtures used by witnesses and counterexamples -/

/-- A card named `Knight`. -/
def knightRec : CardRecord := { name := "Knight", image := "knight.png", alternatives := [] }

/-- A card named `Another Knight`. -/
def anotherKnightRec : CardRecord := { name := "Another Knight", image := "", alternatives := [] }

/-- A card named `zzz`. -/
def zzzRec : CardRecord := { name := "zzz", image := "", alternatives := [] }

/-- A card named `Mega Knight` with one spoken alternative. -/
def megaKnightRec : CardRecord :=
  { name := "Mega Knight", image := "", alternatives := ["mega night"] }

/-- A (degenerate but type-correct) card whose name is the empty string. -/
def emptyNameRec : CardRecord := { name := "", image := "", alternatives := [] }

/-- The `Knight` card placed in a deck slot, evolution off. -/
def knightSlot : DeckSlotCard := { card := knightRec, isEvo := false }

/-- A state whose deck holds `Knight` at position 0 and is otherwise empty. -/
def stKnight : DeckState :=
  { deck := some knightSlot :: List.replicate 7 none, history := [] }

/-! ## Helper lemmas -/

/-- The deck is untouched by `saveState`. -/
theorem saveState_deck (st : DeckState) : (saveState st).deck = st.deck := rfl

/-- The history after `saveState` is the pushed window. -/
theorem saveState_history (st : DeckState) :
    (saveState st).history = pushSnap st.history st.deck := rfl

/-- Every string occurs in itself as a substring. -/
theorem substrOf_self (s : String) : substrOf s s = true :=
  decide_eq_true (List.infix_refl s.data)

/-- The empty string is a substring of every string. -/
theorem substrOf_empty (s : String) : substrOf "" s = true :=
  decide_eq_true ⟨[], s.data, by simp⟩

/-- Lower-casing yields the empty string exactly on the empty string. -/
theorem lowerStr_eq_empty_iff (s : String) : lowerStr s = "" ↔ s = "" := by
  cases s with
  | mk data =>
    constructor
    · intro h
      have h1 : data.map Char.toLower = [] := congrArg String.data h
      have h2 : data = [] := by simpa using h1
      rw [h2]
    · intro h
      rw [h]
      decide

/-- Membership after a history push comes from the old history or is the
pushed snapshot. -/
theorem mem_pushSnap {h : List Deck} {d x : Deck} (hx : x ∈ pushSnap h d) :
    x ∈ h ∨ x = d := by
  have hx' : x ∈ h ++ [d] := by
    unfold pushSnap at hx
    split at hx
    · exact List.mem_of_mem_drop hx
    · exact hx
  rcases List.mem_append.mp hx' with h1 | h1
  · exact Or.inl h1
  · simp only [List.mem_singleton] at h1
    exact Or.inr h1

/-- The most recent entry after a history push is the pushed snapshot. -/
theorem getLast?_pushSnap (h : List Deck) (d : Deck) :
    (pushSnap h d).getLast? = some d := by
  unfold pushSnap
  split
  · next hlen =>
    rcases h with _ | ⟨x, xs⟩
    · simp at hlen
    · simp only [List.cons_append, List.drop_succ_cons, List.drop_zero]
      exact List.getLast?_concat _
  · exact List.getLast?_concat _

/-- One history push on a 10-element sliding window of `l` is the
10-element sliding window of `l` with the new element appended. -/
theorem pushSnap_window (l : List Deck) (d : Deck) :
    pushSnap (l.drop (l.length - 10)) d = (l ++ [d]).drop (l.length + 1 - 10) := by
  unfold pushSnap
  rcases le_or_lt l.length 9 with hl | hl
  · have h0 : l.length - 10 = 0 := by omega
    have h1 : l.length + 1 - 10 = 0 := by omega
    rw [h0, h1, List.drop_zero, List.drop_zero, if_neg]
    simp only [List.length_append, List.length_cons, List.length_nil]
    omega
  · have hwin : (l.drop (l.length - 10)).length = 10 := by
      rw [List.length_drop]; omega
    rw [if_pos]
    · rw [List.drop_append_of_le_length (by omega : 1 ≤ (l.drop (l.length - 10)).length),
        List.drop_drop,
        List.drop_append_of_le_length (by omega : l.length + 1 - 10 ≤ l.length)]
      have harith : l.length - 10 + 1 = l.length + 1 - 10 := by omega
      rw [harith]
    · simp only [List.length_append, List.length_cons, List.length_nil, hwin]
      omega

/-- Folding history pushes over a sliding window keeps it the sliding
window of everything pushed so far. -/
theorem foldl_pushSnap_window (ds : List Deck) :
    ∀ l : List Deck,
      ds.foldl pushSnap (l.drop (l.length - 10)) = (l ++ ds).drop ((l ++ ds).length - 10) := by
  induction ds with
  | nil => intro l; simp
  | cons d ds ih =>
    intro l
    rw [List.foldl_cons, pushSnap_window]
    have h2 := ih (l ++ [d])
    have e1 : (l ++ [d]).length - 10 = l.length + 1 - 10 := by simp
    have e2 : (l ++ [d]) ++ ds = l ++ d :: ds := by simp
    rw [e1, e2] at h2
    exact h2

/-! ## Claim theorems -/

/-- **C4.** The history never holds more than 10 snapshots: starting from
the empty history, any sequence of `saveState`-style pushes leaves
exactly the most recent (at most 10) pushed snapshots, in push order —
so pushing an 11th (or later) snapshot discards the oldest entry. -/
theorem c4_history_bounded_window (ds : List Deck) :
    (ds.foldl pushSnap []).length ≤ 10 ∧
      ds.foldl pushSnap [] = ds.drop (ds.length - 10) := by
  have h := foldl_pushSnap_window ds []
  simp only [List.length_nil, Nat.zero_sub, List.drop_zero, List.drop_nil,
    List.nil_append] at h
  refine ⟨?_, h⟩
  rw [h, List.length_drop]
  omega

/-- **C5.** `cycleCard` on an in-range empty slot is a no-op: the whole
state (deck and history) is unchanged, so no snapshot is pushed. -/
theorem c5_cycle_empty_slot_noop (st : DeckState) (p : Nat)
    (h : st.deck[p]? = some none) : cycleCard p st = st := by
  unfold cycleCard
  rw [h]

/-- Witness for C5 at a concrete input: slot 3 of the startup deck is an
in-range empty slot and cycling it changes nothing. -/
theorem c5_cycle_empty_slot_noop_witness :
    initState.deck[3]? = some none ∧ cycleCard 3 initState = initState :=
  ⟨by decide, c5_cycle_empty_slot_noop initState 3 (by decide)⟩

/-- **C3.** Cycling an occupied position and then undoing restores the
previous deck exactly (all 8 slots, including `isEvo` flags).  In this
value-semantics model the history snapshot cannot be affected by later
in-place mutations, which is what the deep copies in the source
guarantee. -/
theorem c3_cycle_then_undo (st : DeckState) (p : Nat) (card : DeckSlotCard)
    (h : st.deck[p]? = some (some card)) :
    (undo (cycleCard p st)).deck = st.deck := by
  unfold cycleCard
  rw [h]
  unfold undo
  simp only [saveState_history, getLast?_pushSnap]

/-- Witness for C3 at a concrete input: cycling the `Knight` at slot 0 and
undoing restores the deck. -/
theorem c3_cycle_then_undo_witness :
    stKnight.deck[0]? = some (some knightSlot) ∧
      (undo (cycleCard 0 stKnight)).deck = stKnight.deck :=
  ⟨by decide, c3_cycle_then_undo stKnight 0 knightSlot (by decide)⟩

/-! ## The length-8 invariant (C1) -/

/-- The deck has exactly 8 slots and so does every history snapshot. -/
def DeckInv (st : DeckState) : Prop :=
  st.deck.length = 8 ∧ ∀ d ∈ st.history, d.length = 8

theorem initState_inv : DeckInv initState := by
  constructor
  · simp [initState]
  · intro d hd
    simp [initState] at hd

theorem saveState_inv {st : DeckState} (h : DeckInv st) : DeckInv (saveState st) := by
  obtain ⟨hd, hh⟩ := h
  refine ⟨hd, ?_⟩
  intro d hd'
  rcases mem_pushSnap hd' with h1 | rfl
  · exact hh d h1
  · exact hd

theorem cycleCard_inv {st : DeckState} {p : Nat} (h : DeckInv st) :
    DeckInv (cycleCard p st) := by
  cases hc : st.deck[p]? with
  | none => simpa only [cycleCard, hc] using h
  | some slot =>
    cases slot with
    | none => simpa only [cycleCard, hc] using h
    | some card =>
      obtain ⟨hd, hh⟩ := h
      have hp : p < st.deck.length := (List.getElem?_eq_some_iff.mp hc).1
      have h7 : (st.deck.eraseIdx p).length = 7 := by
        rw [List.length_eraseIdx_of_lt hp, hd]
      have h8 : (st.deck.eraseIdx p ++ [some card]).length = 8 := by
        simp [h7]
      simp only [cycleCard, hc]
      refine ⟨?_, (saveState_inv ⟨hd, hh⟩).2⟩
      simp only [saveState_deck, h8]
      simp [h7]

theorem selectCard_inv {st : DeckState} {c : CardRecord} (h : DeckInv st) :
    DeckInv (selectCard c st) := by
  cases hf : (saveState st).deck.findIdx? (slotNameMatches c.name) with
  | some idx =>
    simp only [selectCard, hf]
    exact cycleCard_inv (saveState_inv h)
  | none =>
    simp only [selectCard, hf]
    refine ⟨?_, (saveState_inv h).2⟩
    simp [saveState_deck, h.1]

theorem toggleEvolution_inv {st : DeckState} {p : Nat} (h : DeckInv st) :
    DeckInv (toggleEvolution p st) := by
  cases hc : st.deck[p]? with
  | none => simpa only [toggleEvolution, hc] using h
  | some slot =>
    cases slot with
    | none => simpa only [toggleEvolution, hc] using h
    | some dc =>
      simp only [toggleEvolution, hc]
      refine ⟨?_, (saveState_inv h).2⟩
      simp [saveState_deck, h.1]

theorem undo_inv {st : DeckState} (h : DeckInv st) : DeckInv (undo st) := by
  cases hl : st.history.getLast? with
  | none => simpa only [undo, hl] using h
  | some prev =>
    simp only [undo, hl]
    refine ⟨h.2 prev (List.mem_of_getLast?_eq_some hl), ?_⟩
    intro d hd'
    exact h.2 d (List.dropLast_subset _ hd')

theorem applyOp_inv {st : DeckState} (op : DeckOp) (h : DeckInv st) :
    DeckInv (applyOp st op) := by
  cases op with
  | insertOrBump c => exact selectCard_inv h
  | cycle p => exact cycleCard_inv h
  | toggleEvo p => exact toggleEvolution_inv h
  | undoOp => exact undo_inv h

theorem foldl_applyOp_inv (ops : List DeckOp) :
    ∀ st : DeckState, DeckInv st → DeckInv (ops.foldl applyOp st) := by
  induction ops with
  | nil => intro st h; exact h
  | cons op ops ih =>
    intro st h
    exact ih (applyOp st op) (applyOp_inv op h)

/-- **C1.** Every state reachable from the startup state by `insertOrBump`,
`cycle`, `toggleEvolution` and `undo` operations has a deck of exactly 8
slots, and every snapshot in its history has exactly 8 slots.  Since
every prefix of an operation sequence is itself an operation sequence,
this covers the state before and after every operation. -/
theorem c1_reachable_deck_length_eight (ops : List DeckOp) :
    (runOps ops).deck.length = 8 ∧ ∀ d ∈ (runOps ops).history, d.length = 8 :=
  foldl_applyOp_inv ops initState initState_inv

/-! ## insertOrBump on an existing name vs cycle (C2) -/

/-- Removing the element at a valid index and appending it is a
permutation of the original list. -/
theorem eraseIdx_append_perm {α : Type} (l : List α) (i : Nat) (a : α)
    (h : l[i]? = some a) : (l.eraseIdx i ++ [a]).Perm l := by
  obtain ⟨hi, ha⟩ := List.getElem?_eq_some_iff.mp h
  rw [List.eraseIdx_eq_take_drop_succ]
  have hl : l = l.take i ++ l[i] :: l.drop (i + 1) := by
    conv_lhs => rw [← List.take_append_drop i l]
    rw [List.drop_eq_getElem_cons hi]
  have p1 : ((l.take i ++ l.drop (i + 1)) ++ [a]).Perm
      ([a] ++ (l.take i ++ l.drop (i + 1))) := List.perm_append_comm
  have p2 : (l.take i ++ a :: l.drop (i + 1)).Perm
      (a :: (l.take i ++ l.drop (i + 1))) := List.perm_middle
  conv_rhs => rw [hl]
  rw [ha]
  exact p1.trans p2.symm

/-- **C2 (amended).** When a card of the same name already occupies the
deck (`findIndex` hits position `p`), `insertOrBump` produces the same
resulting deck as `cycle(p)` — no card is evicted (the resulting deck is
a permutation of the old slots, so the slot count and every `isEvo` flag
are preserved) — but not the same history: `insertOrBump` pushes the
pre-mutation snapshot twice (once itself and once inside the delegated
`cycleCard`), one more push than `cycle(p)` performs. -/
theorem c2_bump_is_cycle_with_extra_push (st : DeckState) (c : CardRecord) (p : Nat)
    (hfind : st.deck.findIdx? (slotNameMatches c.name) = some p)
    (hlen : st.deck.length = 8) :
    (selectCard c st).deck = (cycleCard p st).deck ∧
      (cycleCard p st).deck.Perm st.deck ∧
      (selectCard c st).history = pushSnap (cycleCard p st).history st.deck := by
  obtain ⟨hp, hpred, -⟩ := List.findIdx?_eq_some_iff_getElem.mp hfind
  obtain ⟨dc, hdc⟩ : ∃ dc, st.deck[p] = some dc := by
    cases hsd : st.deck[p] with
    | none => rw [hsd] at hpred; simp [slotNameMatches] at hpred
    | some dc => exact ⟨dc, rfl⟩
  have hget : st.deck[p]? = some (some dc) :=
    List.getElem?_eq_some_iff.mpr ⟨hp, hdc⟩
  have hsel : selectCard c st = cycleCard p (saveState st) := by
    simp only [selectCard, saveState_deck, hfind]
  have h7 : (st.deck.eraseIdx p).length = 7 := by
    rw [List.length_eraseIdx_of_lt hp, hlen]
  have h8 : (st.deck.eraseIdx p ++ [some dc]).length = 8 := by
    simp [h7]
  have hgetsave : (saveState st).deck[p]? = some (some dc) := hget
  refine ⟨?_, ?_, ?_⟩
  · rw [hsel]
    simp only [cycleCard, hget, hgetsave, saveState_deck]
  · simp only [cycleCard, hget, saveState_deck, h8]
    simp only [gt_iff_lt, Nat.lt_irrefl, if_false]
    exact eraseIdx_append_perm st.deck p (some dc) hget
  · rw [hsel]
    simp only [cycleCard, hget, hgetsave, saveState_deck, saveState_history]

/-- Witness for C2 (amended) at a concrete input: bumping the `Knight`
already at position 0. -/
theorem c2_bump_is_cycle_with_extra_push_witness :
    (stKnight.deck.findIdx? (slotNameMatches knightRec.name) = some 0 ∧
        stKnight.deck.length = 8) ∧
      ((selectCard knightRec stKnight).deck = (cycleCard 0 stKnight).deck ∧
        (cycleCard 0 stKnight).deck.Perm stKnight.deck ∧
        (selectCard knightRec stKnight).history =
          pushSnap (cycleCard 0 stKnight).history stKnight.deck) :=
  ⟨⟨by decide, by decide⟩,
    c2_bump_is_cycle_with_extra_push stKnight knightRec 0 (by decide) (by decide)⟩

/-- **C2 counterexample.** As stated the claim is false: with `Knight`
occupying position 0 of an otherwise empty deck and an empty history,
`insertOrBump(Knight)` and `cycle(0)` produce the same deck but
different histories (two pushed snapshots versus one). -/
theorem c2_counterexample :
    stKnight.deck.findIdx? (slotNameMatches knightRec.name) = some 0 ∧
      (selectCard knightRec stKnight).deck = (cycleCard 0 stKnight).deck ∧
      (selectCard knightRec stKnight).history ≠ (cycleCard 0 stKnight).history ∧
      (selectCard knightRec stKnight).history.length = 2 ∧
      (cycleCard 0 stKnight).history.length = 1 := by decide

/-! ## Matcher refinement (C6) -/

/-- **C6.** `findBestCardMatch` is exactly the spec's ordered cascade of
the five tiers — each tier a first-hit scan in catalog iteration order,
a later tier consulted only when every earlier tier misses on the whole
catalog — and it reports not-found exactly when every card fails all
five tier tests. -/
theorem c6_matcher_is_tier_cascade (spokenText : String) (cards : List CardRecord) :
    findBestCardMatch spokenText cards = findBestMatchSpec spokenText cards ∧
      (findBestCardMatch spokenText cards = none ↔
        ∀ c ∈ cards,
          tierExactName (trimStr (lowerStr spokenText)) c = false ∧
            tierExactAlt (trimStr (lowerStr spokenText)) c = false ∧
            tierSubName (trimStr (lowerStr spokenText)) c = false ∧
            tierSubAlt (trimStr (lowerStr spokenText)) c = false ∧
            tierStopword (trimStr (lowerStr spokenText)) c = false) := by
  have e1 : tierExactName (trimStr (lowerStr spokenText)) =
      fun c => lowerStr c.name == trimStr (lowerStr spokenText) := rfl
  have e2 : tierExactAlt (trimStr (lowerStr spokenText)) =
      fun c => c.alternatives.any fun alt => lowerStr alt == trimStr (lowerStr spokenText) := rfl
  have e3 : tierSubName (trimStr (lowerStr spokenText)) =
      fun c => substrOf (trimStr (lowerStr spokenText)) (lowerStr c.name) ||
        substrOf (lowerStr c.name) (trimStr (lowerStr spokenText)) := rfl
  have e4 : tierSubAlt (trimStr (lowerStr spokenText)) =
      fun c => c.alternatives.any fun alt =>
        substrOf (trimStr (lowerStr spokenText)) (lowerStr alt) ||
          substrOf (lowerStr alt) (trimStr (lowerStr spokenText)) := rfl
  have e5 : tierStopword (trimStr (lowerStr spokenText)) =
      fun c => substrOf (stripStopwords (trimStr (lowerStr spokenText)))
          (stripStopwords (lowerStr c.name)) ||
        substrOf (stripStopwords (lowerStr c.name))
          (stripStopwords (trimStr (lowerStr spokenText))) := rfl
  have heq : findBestCardMatch spokenText cards = findBestMatchSpec spokenText cards := by
    simp only [findBestCardMatch, findBestMatchSpec, e1, e2, e3, e4, e5]
    cases List.find? (fun c => lowerStr c.name == trimStr (lowerStr spokenText)) cards with
    | some c => simp
    | none =>
      simp only [Option.none_orElse]
      cases List.find? (fun c => c.alternatives.any fun alt =>
          lowerStr alt == trimStr (lowerStr spokenText)) cards with
      | some c => simp
      | none =>
        simp only [Option.none_orElse]
        cases List.find? (fun c =>
            substrOf (trimStr (lowerStr spokenText)) (lowerStr c.name) ||
              substrOf (lowerStr c.name) (trimStr (lowerStr spokenText))) cards with
        | some c => simp
        | none =>
          simp only [Option.none_orElse]
          cases List.find? (fun c => c.alternatives.any fun alt =>
              substrOf (trimStr (lowerStr spokenText)) (lowerStr alt) ||
                substrOf (lowerStr alt) (trimStr (lowerStr spokenText))) cards with
          | some c => simp
          | none => simp
  refine ⟨heq, ?_⟩
  rw [heq]
  unfold findBestMatchSpec
  simp only [Option.orElse_eq_none, List.find?_eq_none, Bool.not_eq_true]
  constructor
  · rintro ⟨h1, h2, h3, h4, h5⟩ c hc
    exact ⟨h1 c hc, h2 c hc, h3 c hc, h4 c hc, h5 c hc⟩
  · intro h
    exact ⟨fun c hc => (h c hc).1, fun c hc => (h c hc).2.1, fun c hc => (h c hc).2.2.1,
      fun c hc => (h c hc).2.2.2.1, fun c hc => (h c hc).2.2.2.2⟩

/-! ## Stopword stripping and `the knight` (C7) -/

/-- **C7 counterexample.** As stated the claim is false: on a catalog
containing only `Another Knight`, `findBestCardMatch "the knight"` does
return that card — at the stopword tier, the stripped spoken text
`knight` is a substring of `another knight`, so the bidirectional
substring test hits even though `another` is never stripped. -/
theorem c7_counterexample :
    findBestCardMatch "the knight" [anotherKnightRec] = some anotherKnightRec ∧
      anotherKnightRec.name = "Another Knight" := by decide

/-- **C7 (amended).** `findBestCardMatch "the knight"` matches a card
named `Knight`; stopword stripping removes `the`, `a`, `an` only as
standalone whole words, so `another knight` strips to itself; with both
`Another Knight` and `Knight` in the catalog the match is `Knight`
(found at the earlier substring tier, which `Another Knight` fails); but
on a catalog containing `Another Knight` and no earlier-tier hit, the
stopword tier's bidirectional substring test returns `Another Knight`. -/
theorem c7_stopword_whole_words :
    findBestCardMatch "the knight" [knightRec] = some knightRec ∧
      stripStopwords (lowerStr "Another Knight") = "another knight" ∧
      stripStopwords (lowerStr "the knight") = "knight" ∧
      findBestCardMatch "the knight" [anotherKnightRec, knightRec] = some knightRec ∧
      findBestCardMatch "the knight" [anotherKnightRec] = some anotherKnightRec := by
  decide

/-! ## `zzz-not-a-card` (C8) -/

/-- **C8 counterexample.** As stated the claim is false: the quantifier
ranges over all non-empty catalogs, and a catalog holding a card named
`zzz` matches at the substring tier, because the spoken text
`zzz-not-a-card` contains `zzz`. -/
theorem c8_counterexample :
    findBestCardMatch "zzz-not-a-card" [zzzRec] = some zzzRec := by decide

/-- **C8 (amended).** `findBestCardMatch "zzz-not-a-card"` reports
not-found on every (in particular every non-empty) catalog in which no
lower-cased card name or alternative is in a substring relation (either
direction) with `zzz-not-a-card`, and no stopword-stripped lower-cased
name is in a substring relation with the stripped spoken text
`zzz-not--card` (the standalone `a` is stripped).  The exclusions are
exactly the tier tests a card could otherwise pass, each of which (enabled
by exact matching being a special case of substring matching) defeats the
claim on an arbitrary catalog. -/
theorem c8_nonsense_misses (cards : List CardRecord) (_hne : cards ≠ [])
    (hname : ∀ c ∈ cards,
      substrOf (lowerStr c.name) "zzz-not-a-card" = false ∧
        substrOf "zzz-not-a-card" (lowerStr c.name) = false)
    (halt : ∀ c ∈ cards, ∀ alt ∈ c.alternatives,
      substrOf (lowerStr alt) "zzz-not-a-card" = false ∧
        substrOf "zzz-not-a-card" (lowerStr alt) = false)
    (hstop : ∀ c ∈ cards,
      substrOf (stripStopwords (lowerStr c.name)) "zzz-not--card" = false ∧
        substrOf "zzz-not--card" (stripStopwords (lowerStr c.name)) = false) :
    findBestCardMatch "zzz-not-a-card" cards = none := by
  have hsp : trimStr (lowerStr "zzz-not-a-card") = "zzz-not-a-card" := by decide
  have hclean : stripStopwords "zzz-not-a-card" = "zzz-not--card" := by decide
  simp only [findBestCardMatch]
  rw [hsp, hclean]
  have h1 : cards.find? (fun c => lowerStr c.name == "zzz-not-a-card") = none := by
    rw [List.find?_eq_none]
    intro c hc
    simp only [Bool.not_eq_true, beq_eq_false_iff_ne]
    intro heq
    have hx := (hname c hc).1
    rw [heq, substrOf_self] at hx
    cases hx
  have h2 : cards.find?
      (fun c => c.alternatives.any (fun alt => lowerStr alt == "zzz-not-a-card")) = none := by
    rw [List.find?_eq_none]
    intro c hc
    simp only [Bool.not_eq_true, List.any_eq_false, beq_eq_false_iff_ne]
    intro alt halt' heq
    have hx := (halt c hc alt halt').1
    rw [heq, substrOf_self] at hx
    cases hx
  have h3 : cards.find? (fun c =>
      substrOf "zzz-not-a-card" (lowerStr c.name) ||
        substrOf (lowerStr c.name) "zzz-not-a-card") = none := by
    rw [List.find?_eq_none]
    intro c hc
    simp only [Bool.not_eq_true, Bool.or_eq_false_iff]
    exact ⟨(hname c hc).2, (hname c hc).1⟩
  have h4 : cards.find? (fun c => c.alternatives.any (fun alt =>
      substrOf "zzz-not-a-card" (lowerStr alt) ||
        substrOf (lowerStr alt) "zzz-not-a-card")) = none := by
    rw [List.find?_eq_none]
    intro c hc
    simp only [Bool.not_eq_true, List.any_eq_false, Bool.or_eq_false_iff]
    intro alt halt'
    exact ⟨(halt c hc alt halt').2, (halt c hc alt halt').1⟩
  have h5 : cards.find? (fun c =>
      substrOf "zzz-not--card" (stripStopwords (lowerStr c.name)) ||
        substrOf (stripStopwords (lowerStr c.name)) "zzz-not--card") = none := by
    rw [List.find?_eq_none]
    intro c hc
    simp only [Bool.not_eq_true, Bool.or_eq_false_iff]
    exact ⟨(hstop c hc).2, (hstop c hc).1⟩
  rw [h1, h2, h3, h4, h5]

/-- Witness for C8 (amended) at a concrete input: a one-card catalog
holding `Mega Knight` (with an alternative) yields not-found. -/
theorem c8_nonsense_misses_witness :
    ([megaKnightRec] : List CardRecord) ≠ [] ∧
      findBestCardMatch "zzz-not-a-card" [megaKnightRec] = none :=
  ⟨by decide, c8_nonsense_misses [megaKnightRec] (by decide) (by decide) (by decide) (by decide)⟩

/-! ## Voice command dispatch (C9) -/

/-- **C9.** A transcript that after lower-casing does not start with the
literal prefix `add ` produces no state change and no notification — the
result does not depend on the catalog at all, which is the extensional
content of "the matcher is never invoked".  When the lower-cased
transcript does start with `add ` but the matcher misses on the
extracted name, a `Card not found` notification is surfaced and the deck
and history are again unchanged. -/
theorem c9_unrecognized_and_miss (cards : List CardRecord) (transcript : String)
    (st : DeckState) :
    (startsWithStr (lowerStr transcript) "add " = false →
      processVoiceCommand cards transcript st = (st, none)) ∧
    (startsWithStr (lowerStr transcript) "add " = true →
      findBestCardMatch (trimStr (dropStr (lowerStr transcript) 4)) cards = none →
      processVoiceCommand cards transcript st =
        (st, some ("Card not found: " ++ trimStr (dropStr (lowerStr transcript) 4)))) := by
  constructor
  · intro h
    simp only [processVoiceCommand, h]
    simp
  · intro h hm
    simp only [processVoiceCommand, h, if_true, addCardByVoice, hm]

/-- Witness for C9 at concrete inputs: `play gold knight` is ignored, and
`add zzz qqq` misses and leaves the state unchanged. -/
theorem c9_unrecognized_and_miss_witness :
    processVoiceCommand [megaKnightRec] "play gold knight" initState = (initState, none) ∧
      processVoiceCommand [megaKnightRec] "add zzz qqq" initState =
        (initState, some ("Card not found: " ++ trimStr (dropStr (lowerStr "add zzz qqq") 4))) :=
  ⟨(c9_unrecognized_and_miss [megaKnightRec] "play gold knight" initState).1 (by decide),
    (c9_unrecognized_and_miss [megaKnightRec] "add zzz qqq" initState).2
      (by decide) (by decide)⟩

/-! ## The empty spoken name (C10) -/

/-- **C10 counterexample.** As stated the claim is false: the quantifier
ranges over all non-empty catalogs, and in a catalog whose second card
has the empty name, `findBestCardMatch ""` returns that second card (the
exact-name tier hits it) rather than the first card. -/
theorem c10_counterexample :
    findBestCardMatch "" [knightRec, emptyNameRec] = some emptyNameRec ∧
      emptyNameRec ≠ knightRec := by decide

/-- **C10 (amended).** On a non-empty catalog `findBestCardMatch ""`
never reports not-found; and when no card name and no alternative is the
empty string, it returns the first card in catalog iteration order (at
the substring tier, every name contains the empty string), and the
transcript `add ` — whose remainder trims to the empty string — makes
`processVoiceCommand` invoke `insertOrBump` with that first card. -/
theorem c10_empty_spoken_matches_head (c : CardRecord) (cs : List CardRecord) :
    (findBestCardMatch "" (c :: cs)).isSome = true ∧
    ((∀ x ∈ c :: cs, x.name ≠ "" ∧ ∀ alt ∈ x.alternatives, alt ≠ "") →
      findBestCardMatch "" (c :: cs) = some c ∧
      ∀ st : DeckState, processVoiceCommand (c :: cs) "add " st =
        (selectCard c st, some ("Added: " ++ c.name))) := by
  have hsp : trimStr (lowerStr "") = "" := by decide
  have htier3 : (c :: cs).find? (fun x =>
      substrOf "" (lowerStr x.name) || substrOf (lowerStr x.name) "") = some c :=
    List.find?_cons_of_pos _ (by simp [substrOf_empty])
  constructor
  · simp only [findBestCardMatch, hsp]
    cases h1 : (c :: cs).find? (fun x => lowerStr x.name == "") with
    | some x => simp
    | none =>
      cases h2 : (c :: cs).find?
          (fun x => x.alternatives.any fun alt => lowerStr alt == "") with
      | some x => simp
      | none => simp [htier3]
  · intro h
    have h1 : (c :: cs).find? (fun x => lowerStr x.name == "") = none := by
      rw [List.find?_eq_none]
      intro x hx
      simp only [Bool.not_eq_true, beq_eq_false_iff_ne]
      intro heq
      exact (h x hx).1 ((lowerStr_eq_empty_iff x.name).mp heq)
    have h2 : (c :: cs).find?
        (fun x => x.alternatives.any fun alt => lowerStr alt == "") = none := by
      rw [List.find?_eq_none]
      intro x hx
      simp only [Bool.not_eq_true, List.any_eq_false, beq_eq_false_iff_ne]
      intro alt halt heq
      exact (h x hx).2 alt halt ((lowerStr_eq_empty_iff alt).mp heq)
    have hmc : findBestCardMatch "" (c :: cs) = some c := by
      simp only [findBestCardMatch, hsp, h1, h2, htier3]
    refine ⟨hmc, ?_⟩
    intro st
    have hlow : lowerStr "add " = "add " := by decide
    have hsw : startsWithStr "add " "add " = true := by decide
    have harg : trimStr (dropStr "add " 4) = "" := by decide
    simp only [processVoiceCommand, hlow, hsw, if_true, harg, addCardByVoice, hmc]

/-- Witness for C10 (amended) at a concrete input: the one-card catalog
holding `Mega Knight`. -/
theorem c10_empty_spoken_matches_head_witness :
    findBestCardMatch "" [megaKnightRec] = some megaKnightRec ∧
      processVoiceCommand [megaKnightRec] "add " initState =
        (selectCard megaKnightRec initState, some ("Added: " ++ megaKnightRec.name)) :=
  ⟨((c10_empty_spoken_matches_head megaKnightRec []).2 (by decide)).1,
    ((c10_empty_spoken_matches_head megaKnightRec []).2 (by decide)).2 initState⟩

end ClashDeck
